import Mathlib

/-!
Formal model of the Local-Anaesthesia repository: the syringe firmware
(moving-average filter over a quaternion channel and a scalar plunger
channel, sharing one circular-buffer cursor, emitting one text frame per
cycle), the cheek firmware (running-total moving average), and the Unity
serial consumer (line validation, parsing, coordinate remap, plunger range
map).  Floating-point values are modelled as exact rationals; C integer
arithmetic as ℤ with truncating division.
-/

/-- `imu::Quaternion` as four rational components (w, x, y, z). -/
structure Quat where
  w : ℚ
  x : ℚ
  y : ℚ
  z : ℚ
  deriving DecidableEq

/-- `const int windowSize = 10;` — the moving-average window of the syringe
firmware. -/
def windowSize : ℕ := 10

/-- One buffer write, `buffer[idx] = value` (an array slot update). -/
def bufWrite {α : Type} (buf : List α) (idx : ℕ) (v : α) : List α := buf.set idx v

/-- `bufferIndex = (bufferIndex + 1) % N` — cursor advance, generalized over
the window size `N`. -/
def advanceCursor (N idx : ℕ) : ℕ := (idx + 1) % N

/-- Folding a whole sequence of samples through a circular buffer: each
sample is stored at the cursor and the cursor advances modulo `N`
(the buffer-update lines of `loop`). -/
def writeSeq {α : Type} (N : ℕ) : List α → ℕ → List α → List α × ℕ
  | buf, c, [] => (buf, c)
  | buf, c, v :: vs => writeSeq N (bufWrite buf c v) (advanceCursor N c) vs

/-- The syringe firmware's mutable globals: `quatBuffer`,
`sensorValueBuffer` and the shared `bufferIndex`. -/
structure LoopState where
  quatBuffer : List Quat
  sensorValueBuffer : List ℚ
  bufferIndex : ℕ
  deriving DecidableEq

/-- Buffer initialization in `setup`: every quaternion slot is the identity
quaternion (1,0,0,0) and every scalar slot is 0.0; `bufferIndex` starts
at 0. -/
def initState : LoopState :=
  { quatBuffer := List.replicate windowSize ⟨1, 0, 0, 0⟩
    sensorValueBuffer := List.replicate windowSize 0
    bufferIndex := 0 }

/-- `rawSensorValue = rawSensorValue / 4095 * -1 + 1;` — the affine
normalization of the raw analog reading. -/
def rawSensorTransform (raw : ℚ) : ℚ := raw / 4095 * (-1) + 1

/-- `averageQuat()`: one pass over `quatBuffer` accumulating the four
component sums, then each sum is divided by `windowSize`. -/
def averageQuat (st : LoopState) : Quat :=
  let s := st.quatBuffer.foldl
    (fun acc q => (acc.1 + q.w, acc.2.1 + q.x, acc.2.2.1 + q.y, acc.2.2.2 + q.z))
    ((0 : ℚ), (0 : ℚ), (0 : ℚ), (0 : ℚ))
  ⟨s.1 / windowSize, s.2.1 / windowSize, s.2.2.1 / windowSize, s.2.2.2 / windowSize⟩

/-- `averageSensor()`: one pass summing `sensorValueBuffer`, divided by
`windowSize`. -/
def averageSensor (st : LoopState) : ℚ :=
  (st.sensorValueBuffer.foldl (· + ·) 0) / windowSize

/-- Mean of a scalar buffer of capacity `N`: sum of the slots over `N`
(what `averageSensor` computes, generalized over the window size). -/
def scalarAverage (N : ℕ) (buf : List ℚ) : ℚ := buf.sum / N

/-- The decimal digit character of `n` (`n` is taken mod nothing: callers
pass a value below 10). -/
def digitChar (n : ℕ) : Char := Char.ofNat (48 + n)

/-- Decimal rendering of a natural number, most significant digit first —
the digit loop of Arduino `Print::printNumber`. -/
def natRepr : ℕ → List Char
  | n =>
    if _h : n < 10 then [digitChar n]
    else natRepr (n / 10) ++ [digitChar (n % 10)]
  termination_by n => n
  decreasing_by exact Nat.div_lt_self (by omega) (by omega)

/-- Arduino `Print::printFloat` on a non-negative value: add a rounding term
of half the last printed digit, print the integer part, a dot, then `prec`
fraction digits most significant first (zero padded). -/
def fmtFixedNonneg (prec : ℕ) (q : ℚ) : String :=
  let r : ℚ := q + 1 / (2 * 10 ^ prec)
  let ip : ℕ := (⌊r⌋).toNat
  let fracVal : ℕ := (⌊(r - (ip : ℚ)) * 10 ^ prec⌋).toNat
  let fracDigits := natRepr fracVal
  if prec = 0 then String.mk (natRepr ip)
  else String.mk (natRepr ip) ++ "." ++
    String.mk (List.replicate (prec - fracDigits.length) '0' ++ fracDigits)

/-- Arduino `Print::printFloat`: a leading minus sign for negative values,
then the non-negative rendering. -/
def fmtFixed (prec : ℕ) (q : ℚ) : String :=
  if q < 0 then "-" ++ fmtFixedNonneg prec (-q) else fmtFixedNonneg prec q

/-- `printQuaternion`: `Serial.print(component, 4)` prints four fraction
digits; the final `Serial.println(sensorValue)` uses the formatter's native
default of two fraction digits and terminates the line. -/
def printQuaternion (quat : Quat) (sensorValue : ℚ) : String :=
  "Quat W:" ++ fmtFixed 4 quat.w ++ ", X:" ++ fmtFixed 4 quat.x ++
    ", Y:" ++ fmtFixed 4 quat.y ++ ", Z:" ++ fmtFixed 4 quat.z ++ "," ++
    fmtFixed 2 sensorValue ++ "\n"

/-- One `loop()` cycle of the syringe firmware: normalize the raw reading,
store both samples at the shared `bufferIndex`, advance the cursor modulo
`windowSize`, compute both averages, emit one printed line. -/
def loopStep (st : LoopState) (rawQuat : Quat) (raw : ℚ) : LoopState × String :=
  let rawSensorValue := rawSensorTransform raw
  let st' : LoopState :=
    { quatBuffer := bufWrite st.quatBuffer st.bufferIndex rawQuat
      sensorValueBuffer := bufWrite st.sensorValueBuffer st.bufferIndex rawSensorValue
      bufferIndex := advanceCursor windowSize st.bufferIndex }
  (st', printQuaternion (averageQuat st') (averageSensor st'))

/-- Iterating `loop()` over a list of per-cycle raw inputs, collecting the
emitted lines. -/
def producerRun : LoopState → List (Quat × ℚ) → LoopState × List String
  | st, [] => (st, [])
  | st, (q, raw) :: rest =>
    let p := loopStep st q raw
    let r := producerRun p.1 rest
    (r.1, p.2 :: r.2)

/-- `setup()`: when `bno.begin()` reports the sensor, the buffers are
initialized and the loop state exists; when it does not, the firmware spins
in `while (1);` forever — no loop state ever comes to be. -/
def setup (bnoBegin : Bool) : Option LoopState :=
  if bnoBegin then some initState else none

/-- Every protocol line the device emits for a given sensor-present flag and
input sequence: none at all when `setup` hangs, one per cycle otherwise. -/
def producerOutputs (bnoBegin : Bool) (inputs : List (Quat × ℚ)) : List String :=
  match setup bnoBegin with
  | none => []
  | some st => (producerRun st inputs).2

/-- The loop state after the run, when the device initialized at all. -/
def producerFinal (bnoBegin : Bool) (inputs : List (Quat × ℚ)) : Option LoopState :=
  match setup bnoBegin with
  | none => none
  | some st => some (producerRun st inputs).1

/-! ### The cheek firmware (`CheekFirmware.ino`) -/

/-- `const int numSamples = 10;` -/
def numSamples : ℕ := 10

/-- Arduino `map(x, in_min, in_max, out_min, out_max)` with C integer
division (truncation toward zero, `Int.tdiv`). -/
def arduinoMap (x inMin inMax outMin outMax : ℤ) : ℤ :=
  Int.tdiv ((x - inMin) * (outMax - outMin)) (inMax - inMin) + outMin

/-- Arduino `constrain(amt, low, high)`. -/
def constrain (x lo hi : ℤ) : ℤ := if x < lo then lo else if x > hi then hi else x

/-- The cheek firmware's globals: `readings`, `readIndex`, the running
`total` and the published `average`. -/
structure CheekState where
  readings : List ℤ
  readIndex : ℕ
  total : ℚ
  average : ℚ
  deriving DecidableEq

/-- C globals start zero-initialized: all ten readings 0, index 0,
total 0, average 0. -/
def cheekInit : CheekState := ⟨List.replicate numSamples 0, 0, 0, 0⟩

/-- One `loop()` cycle of the cheek firmware: subtract the value occupying
the target slot from the running total, store the new constrained-mapped
reading, add it back, advance the index with wrap, publish
`average = total / numSamples`. -/
def cheekStep (st : CheekState) (val : ℤ) : CheekState :=
  let total1 := st.total - ((st.readings.getD st.readIndex 0 : ℤ) : ℚ)
  let newReading := constrain (arduinoMap val 250 100 0 100) 0 100
  let readings1 := st.readings.set st.readIndex newReading
  let total2 := total1 + (newReading : ℚ)
  let readIndex1 := if st.readIndex + 1 ≥ numSamples then 0 else st.readIndex + 1
  { readings := readings1, readIndex := readIndex1, total := total2
    average := total2 / numSamples }

/-- Iterating the cheek loop over a list of raw analog readings. -/
def cheekRun : CheekState → List ℤ → CheekState
  | st, [] => st
  | st, v :: vs => cheekRun (cheekStep st v) vs

/-! ### The Unity consumer (`CombinedController.cs`) -/

/-- C# `string.Split(sep)`: split at every separator occurrence, keeping
empty fields, over the underlying character list. -/
def splitChar (sep : Char) : List Char → List (List Char)
  | [] => [[]]
  | c :: cs =>
    let r := splitChar sep cs
    if c = sep then [] :: r
    else
      match r with
      | [] => [[c]]
      | f :: rest => (c :: f) :: rest

/-- Characters the consumer-side numeric parse strips at either end
(`float.Parse` permits leading/trailing whitespace). -/
def isSpaceCh (c : Char) : Bool := c = ' ' || c = '\t' || c = '\n' || c = '\r'

/-- Strip whitespace from both ends of a character list. -/
def trimChars (l : List Char) : List Char :=
  ((l.dropWhile isSpaceCh).reverse.dropWhile isSpaceCh).reverse

/-- Value of a decimal digit character. -/
def digitVal (c : Char) : ℕ := c.toNat - 48

/-- Accumulate a digit run into a natural number. -/
def digitsToNat (l : List Char) : ℕ := l.foldl (fun acc c => 10 * acc + digitVal c) 0

/-- An unsigned decimal numeral, optionally with a fraction part: digits,
then optionally a dot and more digits; at least one digit overall and
nothing else.  Modelled from the library behavior of .NET `float.Parse` on
plain (non-exponent) decimal notation; anything else fails. -/
def parseUnsigned (cs : List Char) : Option ℚ :=
  let ipart := cs.takeWhile Char.isDigit
  let rest := cs.dropWhile Char.isDigit
  match rest with
  | [] => if ipart.isEmpty then none else some (digitsToNat ipart : ℚ)
  | '.' :: rest2 =>
    let fpart := rest2.takeWhile Char.isDigit
    let rest3 := rest2.dropWhile Char.isDigit
    if rest3.isEmpty = true ∧ ¬(ipart.isEmpty = true ∧ fpart.isEmpty = true) then
      some ((digitsToNat ipart : ℚ) + (digitsToNat fpart : ℚ) / 10 ^ fpart.length)
    else none
  | _ => none

/-- .NET `float.Parse` (decimal notation): optional sign after trimming,
then an unsigned numeral; `none` models the thrown `FormatException`. -/
def parseFloatChars (s : List Char) : Option ℚ :=
  match trimChars s with
  | '-' :: cs => (parseUnsigned cs).map (fun q => -q)
  | '+' :: cs => parseUnsigned cs
  | cs => parseUnsigned cs

/-- `IsValidQuaternionData`: the line starts with `"Quat W:"` and splitting
on `,` yields at least 5 fields. -/
def IsValidQuaternionData (data : String) : Bool :=
  ("Quat W:".data.isPrefixOf data.data) && decide (5 ≤ (splitChar ',' data.data).length)

/-- The parsing block of `ApplyQuaternion`: split on `,`; the first four
fields are split on `:` and their second piece parsed as w, x, y, z; the
fifth field parses directly as the plunger scalar.  A missing field, a
missing `:` piece or a failed numeric parse throws in C# — modelled as
`none` — before any state is touched. -/
def parseFrame (data : String) : Option (ℚ × ℚ × ℚ × ℚ × ℚ) := do
  let parts := splitChar ',' data.data
  let f0 ← parts[0]?
  let f1 ← parts[1]?
  let f2 ← parts[2]?
  let f3 ← parts[3]?
  let f4 ← parts[4]?
  let ws ← (splitChar ':' f0)[1]?
  let w ← parseFloatChars ws
  let xs ← (splitChar ':' f1)[1]?
  let x ← parseFloatChars xs
  let ys ← (splitChar ':' f2)[1]?
  let y ← parseFloatChars ys
  let zs ← (splitChar ':' f3)[1]?
  let z ← parseFloatChars zs
  let plunger ← parseFloatChars f4
  return (w, x, y, z, plunger)

/-- Unity `UnityVector3` restricted to its three components. -/
structure UnityVector3 where
  x : ℚ
  y : ℚ
  z : ℚ
  deriving DecidableEq

/-- Unity `Quaternion` (constructor order x, y, z, w). -/
structure UnityQuaternion where
  x : ℚ
  y : ℚ
  z : ℚ
  w : ℚ
  deriving DecidableEq

/-- The consumer state `ApplyQuaternion` mutates: the target object's local
rotation and the plunger's local position. -/
structure ConsumerState where
  targetRotation : UnityQuaternion
  plungerLocalPosition : UnityVector3
  deriving DecidableEq

/-- Unity `Mathf.Clamp01`. -/
def clamp01 (t : ℚ) : ℚ := if t < 0 then 0 else if t > 1 then 1 else t

/-- Unity `Mathf.Lerp(a, b, t) = a + (b - a) * Clamp01(t)` — the
interpolation parameter is clamped to [0,1]. -/
def mathfLerp (a b t : ℚ) : ℚ := a + (b - a) * clamp01 t

/-- `ApplyQuaternion`: on a successful parse, set the target rotation to
`new Quaternion(-x, -z, -y, w)` and the plunger's local z to
`Mathf.Lerp(-0.0532f, 0.0093f, plungerValue)`, keeping local x and y; the
surrounding try/catch leaves all state untouched on any parse failure. -/
def ApplyQuaternion (st : ConsumerState) (data : String) : ConsumerState :=
  match parseFrame data with
  | none => st
  | some (w, x, y, z, plungerValue) =>
    { targetRotation := ⟨-x, -z, -y, w⟩
      plungerLocalPosition :=
        ⟨st.plungerLocalPosition.x, st.plungerLocalPosition.y,
         mathfLerp (-532 / 10000) (93 / 10000) plungerValue⟩ }

/-- The per-line branch of `Update`: apply the frame only when
`IsValidQuaternionData` accepts the line, otherwise discard it silently. -/
def updateLine (st : ConsumerState) (data : String) : ConsumerState :=
  if IsValidQuaternionData data then ApplyQuaternion st data else st

/-! ### Spec-side shape of an encoded number (for the frame-format claim) -/

/-- Every character of the list is a decimal digit. -/
def allDigits (l : List Char) : Prop := ∀ c ∈ l, c.isDigit = true

/-- The spec's grammar for one encoded numeric field: an optional minus
sign, a non-empty run of digits, a dot, and exactly `prec` fraction
digits. -/
def DecimalShape (prec : ℕ) (s : String) : Prop :=
  ∃ sign ip frac : List Char,
    s.data = sign ++ ip ++ ['.'] ++ frac ∧ (sign = [] ∨ sign = ['-']) ∧
    ip ≠ [] ∧ allDigits ip ∧ frac.length = prec ∧ allDigits frac

/-! ## Helper lemmas about circular-buffer writes -/

section WriteSeqLemmas

variable {α : Type}

theorem writeSeq_length (N : ℕ) (vs : List α) :
    ∀ (buf : List α) (c : ℕ), (writeSeq N buf c vs).1.length = buf.length := by
  induction vs with
  | nil => intro buf c; rfl
  | cons v vs ih => intro buf c; simp [writeSeq, ih, bufWrite]

theorem writeSeq_cursor (N : ℕ) (vs : List α) :
    ∀ (buf : List α) (c : ℕ), c < N → (writeSeq N buf c vs).2 = (c + vs.length) % N := by
  induction vs with
  | nil => intro buf c hc; simp [writeSeq, Nat.mod_eq_of_lt hc]
  | cons v vs ih =>
    intro buf c hc
    have hN : 0 < N := Nat.lt_of_le_of_lt (Nat.zero_le c) hc
    have hstep : advanceCursor N c < N := Nat.mod_lt _ hN
    rw [writeSeq, ih (bufWrite buf c v) (advanceCursor N c) hstep]
    simp only [advanceCursor, Nat.mod_add_mod, List.length_cons]
    have harith : c + 1 + vs.length = c + (vs.length + 1) := by omega
    rw [harith]

theorem writeSeq_append (N : ℕ) (us : List α) :
    ∀ (vs buf : List α) (c : ℕ),
      writeSeq N buf c (us ++ vs)
        = writeSeq N (writeSeq N buf c us).1 (writeSeq N buf c us).2 vs := by
  induction us with
  | nil => intro vs buf c; rfl
  | cons u us ih => intro vs buf c; simp [writeSeq, ih]

theorem take_set_succ (l : List α) (c : ℕ) (v : α) (h : c < l.length) :
    (l.set c v).take (c + 1) = l.take c ++ [v] := by
  rw [List.set_eq_take_cons_drop v h, List.take_append_eq_append_take]
  have h1 : (List.take c l).length = c := by
    simp [List.length_take, Nat.min_eq_left (Nat.le_of_lt h)]
  rw [List.take_of_length_le (by omega), h1]
  simp

theorem writeSeq_nowrap (N : ℕ) (vs : List α) :
    ∀ (buf : List α) (c : ℕ), buf.length = N → c + vs.length ≤ N →
      (writeSeq N buf c vs).1 = buf.take c ++ vs ++ buf.drop (c + vs.length) := by
  induction vs with
  | nil =>
    intro buf c _ _
    simp [writeSeq, List.take_append_drop]
  | cons v vs ih =>
    intro buf c hlen hle
    have hc : c < N := by simp at hle; omega
    have hcb : c < buf.length := by omega
    by_cases hcN : c + 1 = N
    · have hvs : vs = [] := by
        have : vs.length = 0 := by simp at hle; omega
        exact List.length_eq_zero.mp this
      subst hvs
      simp only [writeSeq, bufWrite, advanceCursor]
      rw [List.set_eq_take_cons_drop v hcb]
      simp
    · have hstep : advanceCursor N c = c + 1 := by
        simp [advanceCursor, Nat.mod_eq_of_lt (by omega : c + 1 < N)]
      simp only [writeSeq, bufWrite, hstep]
      rw [ih (buf.set c v) (c + 1) (by simp [hlen]) (by simp at hle ⊢; omega)]
      rw [take_set_succ buf c v hcb]
      rw [List.drop_set]
      have hlt : c < c + 1 + vs.length := by omega
      rw [if_pos hlt]
      simp only [List.length_cons]
      have harith : c + (vs.length + 1) = c + 1 + vs.length := by omega
      rw [harith]
      simp [List.append_assoc]

end WriteSeqLemmas

section FullWindow

variable {α : Type}

theorem writeSeq_full_window (N : ℕ) (vs buf : List α) (c : ℕ)
    (hlen : buf.length = N) (hvs : vs.length = N) (hc : c < N) :
    (writeSeq N buf c vs).1 = vs.drop (N - c) ++ vs.take (N - c) := by
  have htake : (vs.take (N - c)).length = N - c := by
    simp [List.length_take, hvs]
  have hdroplen : (vs.drop (N - c)).length = c := by
    simp [List.length_drop, hvs]; omega
  conv_lhs => rw [← List.take_append_drop (N - c) vs]
  rw [writeSeq_append]
  have h1 : (writeSeq N buf c (vs.take (N - c))).1
      = buf.take c ++ vs.take (N - c) := by
    rw [writeSeq_nowrap N _ buf c hlen (by omega)]
    rw [htake]
    have : c + (N - c) = N := by omega
    rw [this, ← hlen, List.drop_length, List.append_nil]
  have h2 : (writeSeq N buf c (vs.take (N - c))).2 = 0 := by
    rw [writeSeq_cursor N _ buf c hc, htake]
    have : c + (N - c) = N := by omega
    rw [this, Nat.mod_self]
  rw [h1, h2]
  have hblen : (buf.take c ++ vs.take (N - c)).length = N := by
    simp [List.length_take, hlen, htake]
    omega
  rw [writeSeq_nowrap N _ _ 0 hblen (by omega)]
  rw [List.take_zero, List.nil_append, hdroplen]
  rw [List.drop_append_eq_append_drop]
  have hc' : (List.take c buf).length = c := by
    simp [List.length_take, hlen]; omega
  rw [hc']
  simp

theorem writeSeq_perm_last (N : ℕ) (vs buf : List α)
    (hN : 1 ≤ N) (hvs : N ≤ vs.length) (hlen : buf.length = N) :
    ((writeSeq N buf 0 vs).1).Perm (vs.drop (vs.length - N)) := by
  have hsplit : vs = vs.take (vs.length - N) ++ vs.drop (vs.length - N) :=
    (List.take_append_drop _ _).symm
  conv_lhs => rw [hsplit]
  rw [writeSeq_append]
  have hlast : (vs.drop (vs.length - N)).length = N := by
    simp [List.length_drop]; omega
  have hb1len : (writeSeq N buf 0 (vs.take (vs.length - N))).1.length = N := by
    rw [writeSeq_length]; exact hlen
  have hc1 : (writeSeq N buf 0 (vs.take (vs.length - N))).2 < N := by
    rw [writeSeq_cursor N _ buf 0 (by omega)]
    exact Nat.mod_lt _ (by omega)
  rw [writeSeq_full_window N _ _ _ hb1len hlast hc1]
  calc ((vs.drop (vs.length - N)).drop (N - (writeSeq N buf 0 (vs.take (vs.length - N))).2)
          ++ (vs.drop (vs.length - N)).take (N - (writeSeq N buf 0 (vs.take (vs.length - N))).2)).Perm
        ((vs.drop (vs.length - N)).take (N - (writeSeq N buf 0 (vs.take (vs.length - N))).2)
          ++ (vs.drop (vs.length - N)).drop (N - (writeSeq N buf 0 (vs.take (vs.length - N))).2)) :=
      List.perm_append_comm
    _ = vs.drop (vs.length - N) := List.take_append_drop _ _

end FullWindow

/-! ## Correspondence between the firmware loop and the write fold -/

theorem producerRun_state (inputs : List (Quat × ℚ)) :
    ∀ st : LoopState,
      (producerRun st inputs).1.quatBuffer
        = (writeSeq windowSize st.quatBuffer st.bufferIndex (inputs.map Prod.fst)).1 ∧
      (producerRun st inputs).1.sensorValueBuffer
        = (writeSeq windowSize st.sensorValueBuffer st.bufferIndex
            (inputs.map (fun p => rawSensorTransform p.2))).1 ∧
      (producerRun st inputs).1.bufferIndex
        = (writeSeq windowSize st.sensorValueBuffer st.bufferIndex
            (inputs.map (fun p => rawSensorTransform p.2))).2 := by
  induction inputs with
  | nil => intro st; exact ⟨rfl, rfl, rfl⟩
  | cons p rest ih =>
    intro st
    obtain ⟨h1, h2, h3⟩ := ih
      { quatBuffer := bufWrite st.quatBuffer st.bufferIndex p.1
        sensorValueBuffer :=
          bufWrite st.sensorValueBuffer st.bufferIndex (rawSensorTransform p.2)
        bufferIndex := advanceCursor windowSize st.bufferIndex }
    exact ⟨h1, h2, h3⟩

theorem producerRun_outputs_length (inputs : List (Quat × ℚ)) :
    ∀ st : LoopState, (producerRun st inputs).2.length = inputs.length := by
  induction inputs with
  | nil => intro st; rfl
  | cons p rest ih => intro st; simp [producerRun, ih]

theorem quatFoldSum (l : List Quat) :
    ∀ a b c d : ℚ,
      l.foldl (fun acc q => (acc.1 + q.w, acc.2.1 + q.x, acc.2.2.1 + q.y, acc.2.2.2 + q.z))
          (a, b, c, d)
        = (a + (l.map Quat.w).sum, b + (l.map Quat.x).sum,
           c + (l.map Quat.y).sum, d + (l.map Quat.z).sum) := by
  induction l with
  | nil => intro a b c d; simp
  | cons q l ih =>
    intro a b c d
    simp only [List.foldl_cons, List.map_cons, List.sum_cons, ih, Prod.mk.injEq]
    refine ⟨by ring, by ring, by ring, by ring⟩

theorem averageQuat_components (st : LoopState) :
    averageQuat st
      = ⟨(st.quatBuffer.map Quat.w).sum / windowSize,
         (st.quatBuffer.map Quat.x).sum / windowSize,
         (st.quatBuffer.map Quat.y).sum / windowSize,
         (st.quatBuffer.map Quat.z).sum / windowSize⟩ := by
  unfold averageQuat
  rw [quatFoldSum]
  simp

theorem averageSensor_eq (st : LoopState) :
    averageSensor st = scalarAverage windowSize st.sensorValueBuffer := by
  unfold averageSensor scalarAverage
  rw [List.sum_eq_foldl]

/-! ## Claim theorems -/

/-- C1: for all N ≥ 1 and all write sequences, after at least N writes the
scalar channel's average equals the arithmetic mean of exactly the last N
written values; writing exactly N+1 samples leaves the buffer holding
samples 2..N+1 (sample 1 evicted), the average shifting accordingly.  In
particular, after at least windowSize firmware cycles `averageSensor` is
the mean of the last windowSize normalized readings. -/
theorem scalar_average_is_mean_of_last_window :
    (∀ (N : ℕ) (vs : List ℚ), 1 ≤ N → N ≤ vs.length →
      scalarAverage N (writeSeq N (List.replicate N 0) 0 vs).1
        = (vs.drop (vs.length - N)).sum / N ∧
      ((writeSeq N (List.replicate N 0) 0 vs).1).Perm (vs.drop (vs.length - N)) ∧
      (vs.length = N + 1 →
        ((writeSeq N (List.replicate N 0) 0 vs).1).Perm (vs.drop 1) ∧
        scalarAverage N (writeSeq N (List.replicate N 0) 0 vs).1
          = (vs.drop 1).sum / N)) ∧
    (∀ inputs : List (Quat × ℚ), windowSize ≤ inputs.length →
      averageSensor (producerRun initState inputs).1
        = ((inputs.map (fun p => rawSensorTransform p.2)).drop
            (inputs.length - windowSize)).sum / windowSize) := by
  have main : ∀ (N : ℕ) (vs : List ℚ), 1 ≤ N → N ≤ vs.length →
      scalarAverage N (writeSeq N (List.replicate N 0) 0 vs).1
        = (vs.drop (vs.length - N)).sum / N ∧
      ((writeSeq N (List.replicate N 0) 0 vs).1).Perm (vs.drop (vs.length - N)) ∧
      (vs.length = N + 1 →
        ((writeSeq N (List.replicate N 0) 0 vs).1).Perm (vs.drop 1) ∧
        scalarAverage N (writeSeq N (List.replicate N 0) 0 vs).1
          = (vs.drop 1).sum / N) := by
    intro N vs hN hvs
    have hperm := writeSeq_perm_last N vs (List.replicate N 0) hN hvs (by simp)
    have havg : scalarAverage N (writeSeq N (List.replicate N 0) 0 vs).1
        = (vs.drop (vs.length - N)).sum / N := by
      unfold scalarAverage
      rw [hperm.sum_eq]
    refine ⟨havg, hperm, fun h => ?_⟩
    have hone : vs.length - N = 1 := by omega
    rw [← hone]
    exact ⟨hperm, havg⟩
  refine ⟨main, fun inputs hlen => ?_⟩
  obtain ⟨_, h2, _⟩ := producerRun_state inputs initState
  rw [show initState.sensorValueBuffer = List.replicate windowSize 0 from rfl,
    show initState.bufferIndex = 0 from rfl] at h2
  have hvs : windowSize ≤ (inputs.map (fun p => rawSensorTransform p.2)).length := by
    simpa using hlen
  have := (main windowSize (inputs.map (fun p => rawSensorTransform p.2))
    (by norm_num [windowSize]) hvs).1
  rw [averageSensor_eq, h2, this]
  simp

/-- Witness for C1 at N = 2 and the writes [3, 5, 7]: the average is the
mean of the last two writes. -/
theorem scalar_average_is_mean_of_last_window_witness :
    scalarAverage 2 (writeSeq 2 (List.replicate 2 0) 0 [(3 : ℚ), 5, 7]).1
      = (([(3 : ℚ), 5, 7]).drop (([(3 : ℚ), 5, 7]).length - 2)).sum / 2 :=
  (scalar_average_is_mean_of_last_window.1 2 [3, 5, 7] (by norm_num) (by norm_num)).1

/-- C3: the shared cursor stays in [0, windowSize), advances by exactly one
position per cycle (wrapping at windowSize), both channel buffers are
written at the same cursor value each cycle, and after any cycle count C
both buffers are the result of exactly C writes along the same cursor
trajectory starting from 0. -/
theorem shared_cursor_lockstep :
    (∀ (st : LoopState) (q : Quat) (raw : ℚ),
      (loopStep st q raw).1.quatBuffer = bufWrite st.quatBuffer st.bufferIndex q ∧
      (loopStep st q raw).1.sensorValueBuffer
        = bufWrite st.sensorValueBuffer st.bufferIndex (rawSensorTransform raw) ∧
      (loopStep st q raw).1.bufferIndex = (st.bufferIndex + 1) % windowSize) ∧
    (∀ inputs : List (Quat × ℚ),
      (producerRun initState inputs).1.bufferIndex = inputs.length % windowSize ∧
      (producerRun initState inputs).1.bufferIndex < windowSize ∧
      (producerRun initState inputs).2.length = inputs.length ∧
      (producerRun initState inputs).1.quatBuffer
        = (writeSeq windowSize (List.replicate windowSize ⟨1, 0, 0, 0⟩) 0
            (inputs.map Prod.fst)).1 ∧
      (producerRun initState inputs).1.sensorValueBuffer
        = (writeSeq windowSize (List.replicate windowSize 0) 0
            (inputs.map (fun p => rawSensorTransform p.2))).1) := by
  constructor
  · intro st q raw
    exact ⟨rfl, rfl, rfl⟩
  · intro inputs
    obtain ⟨h1, h2, h3⟩ := producerRun_state inputs initState
    rw [show initState.quatBuffer = List.replicate windowSize ⟨1, 0, 0, 0⟩ from rfl,
      show initState.bufferIndex = 0 from rfl] at h1
    rw [show initState.sensorValueBuffer = List.replicate windowSize 0 from rfl,
      show initState.bufferIndex = 0 from rfl] at h2 h3
    have hcur : (producerRun initState inputs).1.bufferIndex
        = inputs.length % windowSize := by
      rw [h3, writeSeq_cursor windowSize _ _ 0 (by norm_num [windowSize])]
      simp
    refine ⟨hcur, ?_, producerRun_outputs_length inputs initState, h1, h2⟩
    rw [hcur]
    exact Nat.mod_lt _ (by norm_num [windowSize])

/-- C6: if the motion sensor never responds to initialization the producer
halts permanently — no loop state, no emitted frame for any input sequence;
and when initialization succeeds every cycle runs and emits (the failed
handshake is the only halting condition). -/
theorem fatal_initialization_halts_producer :
    setup false = none ∧
    (∀ inputs : List (Quat × ℚ), producerOutputs false inputs = []) ∧
    (∀ inputs : List (Quat × ℚ), producerFinal false inputs = none) ∧
    (∀ inputs : List (Quat × ℚ),
      (producerOutputs true inputs).length = inputs.length) := by
  refine ⟨rfl, fun _ => rfl, fun _ => rfl, fun inputs => ?_⟩
  unfold producerOutputs setup
  simp [producerRun_outputs_length]

/-- C7: before the first full window the buffers hold the written samples
followed by the neutral fill (identity quaternion, zero scalar), the
initial buffers are entirely neutral fill, and the scalar average is
computed over exactly those slots — so both averages are defined from the
first cycle on. -/
theorem partial_window_neutral_fill (inputs : List (Quat × ℚ))
    (h : inputs.length < windowSize) :
    initState.quatBuffer = List.replicate windowSize ⟨1, 0, 0, 0⟩ ∧
    initState.sensorValueBuffer = List.replicate windowSize 0 ∧
    (producerRun initState inputs).1.quatBuffer
      = inputs.map Prod.fst
        ++ List.replicate (windowSize - inputs.length) ⟨1, 0, 0, 0⟩ ∧
    (producerRun initState inputs).1.sensorValueBuffer
      = inputs.map (fun p => rawSensorTransform p.2)
        ++ List.replicate (windowSize - inputs.length) 0 ∧
    averageSensor (producerRun initState inputs).1
      = (inputs.map (fun p => rawSensorTransform p.2)).sum / windowSize ∧
    averageQuat (producerRun initState inputs).1
      = ⟨(((producerRun initState inputs).1.quatBuffer.map Quat.w).sum) / windowSize,
         (((producerRun initState inputs).1.quatBuffer.map Quat.x).sum) / windowSize,
         (((producerRun initState inputs).1.quatBuffer.map Quat.y).sum) / windowSize,
         (((producerRun initState inputs).1.quatBuffer.map Quat.z).sum) / windowSize⟩ := by
  obtain ⟨h1, h2, _⟩ := producerRun_state inputs initState
  rw [show initState.quatBuffer = List.replicate windowSize ⟨1, 0, 0, 0⟩ from rfl,
    show initState.bufferIndex = 0 from rfl] at h1
  rw [show initState.sensorValueBuffer = List.replicate windowSize 0 from rfl,
    show initState.bufferIndex = 0 from rfl] at h2
  have hq : (producerRun initState inputs).1.quatBuffer
      = inputs.map Prod.fst
        ++ List.replicate (windowSize - inputs.length) ⟨1, 0, 0, 0⟩ := by
    rw [h1]
    rw [writeSeq_nowrap windowSize _ _ 0 (by simp)
      (by simp; omega)]
    simp [List.drop_replicate]
  have hs : (producerRun initState inputs).1.sensorValueBuffer
      = inputs.map (fun p => rawSensorTransform p.2)
        ++ List.replicate (windowSize - inputs.length) 0 := by
    rw [h2]
    rw [writeSeq_nowrap windowSize _ _ 0 (by simp)
      (by simp; omega)]
    simp [List.drop_replicate]
  refine ⟨rfl, rfl, hq, hs, ?_, averageQuat_components _⟩
  rw [averageSensor_eq, hs]
  unfold scalarAverage
  simp

/-- C8: the orientation channel's average is the component-wise arithmetic
mean of w, x, y, z over all stored slots, with no renormalization to unit
length: a buffer of ten copies of (2,0,0,0) averages to (2,0,0,0), whose
squared norm is 4, not 1. -/
theorem orientation_average_componentwise_unnormalized :
    (∀ st : LoopState,
      (averageQuat st).w = (st.quatBuffer.map Quat.w).sum / windowSize ∧
      (averageQuat st).x = (st.quatBuffer.map Quat.x).sum / windowSize ∧
      (averageQuat st).y = (st.quatBuffer.map Quat.y).sum / windowSize ∧
      (averageQuat st).z = (st.quatBuffer.map Quat.z).sum / windowSize) ∧
    (averageQuat
        { quatBuffer := List.replicate windowSize ⟨2, 0, 0, 0⟩
          sensorValueBuffer := List.replicate windowSize 0
          bufferIndex := 0 } = ⟨2, 0, 0, 0⟩ ∧
      ¬((2 : ℚ) ^ 2 + 0 ^ 2 + 0 ^ 2 + 0 ^ 2 = 1)) := by
  constructor
  · intro st
    rw [averageQuat_components st]
    exact ⟨rfl, rfl, rfl, rfl⟩
  · constructor
    · rw [averageQuat_components]
      simp [windowSize, List.sum_replicate]
      norm_num
    · norm_num

/-- C9: every cycle normalizes the raw scalar reading by the affine
transform raw / 4095 * (-1) + 1 (fullScale 4095, sign -1, offset 1) and
stores it into the slot at the cursor unmodified — no clamping: the raw
reading 8190 yields -1, which lies outside [0,1]. -/
theorem scalar_normalization_affine_unclamped :
    (∀ raw : ℚ, rawSensorTransform raw = raw / 4095 * (-1) + 1) ∧
    (∀ (st : LoopState) (q : Quat) (raw : ℚ),
      (loopStep st q raw).1.sensorValueBuffer
        = st.sensorValueBuffer.set st.bufferIndex (rawSensorTransform raw)) ∧
    rawSensorTransform 8190 = -1 ∧
    rawSensorTransform 8190 < 0 := by
  refine ⟨fun raw => rfl, fun st q raw => rfl, ?_, ?_⟩
  · unfold rawSensorTransform; norm_num
  · unfold rawSensorTransform; norm_num

/-- Witness for C7 at the single cycle reading raw 0: the scalar buffer
holds the one written value 1 followed by nine neutral zero slots. -/
theorem partial_window_neutral_fill_witness :
    (producerRun initState [(⟨1, 0, 0, 0⟩, (0 : ℚ))]).1.sensorValueBuffer
      = 1 :: List.replicate 9 (0 : ℚ) := by
  have h := (partial_window_neutral_fill [(⟨1, 0, 0, 0⟩, 0)]
    (by norm_num [windowSize])).2.2.2.1
  rw [h]
  norm_num [rawSensorTransform, windowSize]

/-! ## Helper lemmas for the running-total firmware -/

theorem sum_set_getD (l : List ℚ) (i : ℕ) (a : ℚ) (h : i < l.length) :
    (l.set i a).sum = l.sum - l.getD i 0 + a := by
  rw [List.sum_set, if_pos h]
  have hl : l.sum = (l.take i).sum + l.getD i 0 + (l.drop (i + 1)).sum := by
    conv_lhs => rw [← List.take_append_drop i l]
    rw [List.sum_append]
    rw [List.drop_eq_getElem_cons h, List.sum_cons, List.getD_eq_getElem l 0 h]
    ring
  rw [hl]
  ring

theorem cheekRun_invariant (vals : List ℤ) :
    ∀ st : CheekState, st.readings.length = numSamples → st.readIndex < numSamples →
      st.total = ((st.readings.map (fun z : ℤ => (z : ℚ))).sum) →
      st.average = st.total / numSamples →
      (cheekRun st vals).readings.length = numSamples ∧
      (cheekRun st vals).readIndex < numSamples ∧
      (cheekRun st vals).total
        = (((cheekRun st vals).readings.map (fun z : ℤ => (z : ℚ))).sum) ∧
      (cheekRun st vals).average = (cheekRun st vals).total / numSamples := by
  induction vals with
  | nil => intro st h1 h2 h3 h4; exact ⟨h1, h2, h3, h4⟩
  | cons v vs ih =>
    intro st h1 h2 h3 h4
    apply ih
    · simp [cheekStep]
      exact h1
    · unfold cheekStep
      dsimp only
      split <;> omega
    · unfold cheekStep
      dsimp only
      rw [List.map_set]
      rw [sum_set_getD _ _ _ (by simp [h1]; omega)]
      rw [h3]
      have hgd : ((st.readings.map (fun z : ℤ => (z : ℚ))).getD st.readIndex 0)
          = ((st.readings.getD st.readIndex 0 : ℤ) : ℚ) := by
        have hlt : st.readIndex < st.readings.length := by omega
        have hlt' : st.readIndex < (st.readings.map (fun z : ℤ => (z : ℚ))).length := by
          simp [hlt]
        rw [List.getD_eq_getElem _ 0 hlt', List.getD_eq_getElem _ 0 hlt]
        simp
      rw [hgd]
    · rfl

/-- C2: the scalar channel of the cheek firmware keeps a running total —
each cycle subtracts the value occupying the target slot, stores the new
reading, adds it back, and publishes average = total / numSamples — and
after any interleaving of writes this running-sum average equals a
from-scratch recomputation over the same N slots exactly, hence within the
1e-5 relative tolerance. -/
theorem running_total_matches_rescan :
    (∀ (st : CheekState) (v : ℤ),
      (cheekStep st v).total
        = st.total - ((st.readings.getD st.readIndex 0 : ℤ) : ℚ)
          + ((constrain (arduinoMap v 250 100 0 100) 0 100 : ℤ) : ℚ) ∧
      (cheekStep st v).readings
        = st.readings.set st.readIndex (constrain (arduinoMap v 250 100 0 100) 0 100) ∧
      (cheekStep st v).average = (cheekStep st v).total / numSamples) ∧
    (∀ vals : List ℤ,
      (cheekRun cheekInit vals).total
        = ((cheekRun cheekInit vals).readings.map (fun z : ℤ => (z : ℚ))).sum ∧
      (cheekRun cheekInit vals).average
        = scalarAverage numSamples
            ((cheekRun cheekInit vals).readings.map (fun z : ℤ => (z : ℚ))) ∧
      |(cheekRun cheekInit vals).average
          - scalarAverage numSamples
              ((cheekRun cheekInit vals).readings.map (fun z : ℤ => (z : ℚ)))|
        ≤ (1 / 100000)
          * |scalarAverage numSamples
              ((cheekRun cheekInit vals).readings.map (fun z : ℤ => (z : ℚ)))|) := by
  constructor
  · intro st v
    exact ⟨rfl, rfl, rfl⟩
  · intro vals
    obtain ⟨hlen, hidx, htot, havg⟩ := cheekRun_invariant vals cheekInit
      (by simp [cheekInit]) (by norm_num [cheekInit, numSamples])
      (by simp [cheekInit]) (by simp [cheekInit])
    have heq : (cheekRun cheekInit vals).average
        = scalarAverage numSamples
            ((cheekRun cheekInit vals).readings.map (fun z : ℤ => (z : ℚ))) := by
      rw [havg, htot]
      rfl
    refine ⟨htot, heq, ?_⟩
    rw [heq, sub_self, abs_zero]
    positivity

/-! ## Consumer-side lemmas and claims -/

theorem mathfLerp_bounds (a b t : ℚ) (hab : a ≤ b) :
    a ≤ mathfLerp a b t ∧ mathfLerp a b t ≤ b := by
  unfold mathfLerp clamp01
  split_ifs with h1 h2
  · constructor <;> nlinarith
  · constructor <;> nlinarith
  · push_neg at h1 h2
    constructor <;> nlinarith

/-- C5: the consumer applies a frame only when the line starts with
"Quat W:", splits into at least five comma fields and all five numeric
parses succeed; a line failing the shape test is discarded with no state
change, and a parse failure after the shape test drops the whole frame with
the prior state retained — a frame is never half-applied. -/
theorem consumer_frame_atomicity (st : ConsumerState) (data : String) :
    (IsValidQuaternionData data = false → updateLine st data = st) ∧
    (parseFrame data = none → updateLine st data = st) ∧
    (updateLine st data = st ∨
      (IsValidQuaternionData data = true ∧
        ∃ w x y z p : ℚ, parseFrame data = some (w, x, y, z, p) ∧
          updateLine st data =
            { targetRotation := ⟨-x, -z, -y, w⟩
              plungerLocalPosition :=
                ⟨st.plungerLocalPosition.x, st.plungerLocalPosition.y,
                 mathfLerp (-532 / 10000) (93 / 10000) p⟩ })) := by
  refine ⟨?_, ?_, ?_⟩
  · intro h
    simp [updateLine, h]
  · intro h
    by_cases hv : IsValidQuaternionData data <;>
      simp [updateLine, ApplyQuaternion, hv, h]
  · by_cases hv : IsValidQuaternionData data
    · cases hp : parseFrame data with
      | none => left; simp [updateLine, ApplyQuaternion, hv, hp]
      | some f =>
        right
        obtain ⟨w, x, y, z, p⟩ := f
        exact ⟨hv, w, x, y, z, p, rfl, by simp [updateLine, ApplyQuaternion, hv, hp]⟩
    · left
      simp [updateLine, hv]

/-- C10: any successfully parsed frame moves the plunger only along z — the
local x and y are untouched — and the linear range map clamps the
interpolation parameter, so the written z always lies in
[-0.0532, 0.0093], whatever scalar was transmitted. -/
theorem plunger_range_clamped (st : ConsumerState) (data : String)
    (w x y z p : ℚ) (h : parseFrame data = some (w, x, y, z, p)) :
    (ApplyQuaternion st data).plungerLocalPosition.x = st.plungerLocalPosition.x ∧
    (ApplyQuaternion st data).plungerLocalPosition.y = st.plungerLocalPosition.y ∧
    -532 / 10000 ≤ (ApplyQuaternion st data).plungerLocalPosition.z ∧
    (ApplyQuaternion st data).plungerLocalPosition.z ≤ 93 / 10000 := by
  unfold ApplyQuaternion
  rw [h]
  refine ⟨rfl, rfl, ?_, ?_⟩
  · exact (mathfLerp_bounds _ _ p (by norm_num)).1
  · exact (mathfLerp_bounds _ _ p (by norm_num)).2

/-! ## Shape of the encoded numbers -/

theorem digitChar_isDigit (n : ℕ) (h : n < 10) : (digitChar n).isDigit = true := by
  unfold digitChar
  interval_cases n <;> decide

theorem natRepr_ne_nil (n : ℕ) : natRepr n ≠ [] := by
  rw [natRepr]
  split_ifs <;> simp

theorem natRepr_allDigits (n : ℕ) : ∀ c ∈ natRepr n, c.isDigit = true := by
  induction n using Nat.strong_induction_on with
  | _ n ih =>
    rw [natRepr]
    split_ifs with h
    · intro c hc
      simp only [List.mem_singleton] at hc
      subst hc
      exact digitChar_isDigit n h
    · intro c hc
      rw [List.mem_append] at hc
      rcases hc with hc | hc
      · exact ih (n / 10) (Nat.div_lt_self (by omega) (by omega)) c hc
      · simp only [List.mem_singleton] at hc
        subst hc
        exact digitChar_isDigit (n % 10) (Nat.mod_lt _ (by omega))

theorem natRepr_length_le (n : ℕ) : ∀ k : ℕ, 1 ≤ k → n < 10 ^ k → (natRepr n).length ≤ k := by
  induction n using Nat.strong_induction_on with
  | _ n ih =>
    intro k hk hn
    rw [natRepr]
    split_ifs with h
    · simpa using hk
    · have hk2 : 2 ≤ k := by
        by_contra hcon
        have hk1 : k = 1 := by omega
        subst hk1
        norm_num at hn
        omega
      have hdiv : n / 10 < 10 ^ (k - 1) := by
        have hpow : 10 ^ k = 10 ^ (k - 1) * 10 := by
          rw [← pow_succ]
          congr 1
          omega
        rw [Nat.div_lt_iff_lt_mul (by omega : 0 < 10)]
        omega
      have hlen := ih (n / 10) (Nat.div_lt_self (by omega) (by omega)) (k - 1)
        (by omega) hdiv
      simp only [List.length_append, List.length_singleton]
      omega

theorem isDigit_ne_newline (c : Char) (h : c.isDigit = true) : c ≠ '\n' := by
  intro he
  subst he
  exact absurd h (by decide)

theorem fmtFixedNonneg_shape (prec : ℕ) (q : ℚ) (hq : 0 ≤ q) (hp : 1 ≤ prec) :
    ∃ ip frac : List Char,
      (fmtFixedNonneg prec q).data = ip ++ ['.'] ++ frac ∧ ip ≠ [] ∧
      allDigits ip ∧ frac.length = prec ∧ allDigits frac := by
  unfold fmtFixedNonneg
  rw [if_neg (by omega : ¬ prec = 0)]
  have hr0 : (0 : ℚ) ≤ q + 1 / (2 * 10 ^ prec) := by positivity
  have hipQ : (((⌊q + 1 / (2 * 10 ^ prec)⌋).toNat : ℕ) : ℚ)
      = ((⌊q + 1 / (2 * 10 ^ prec)⌋ : ℤ) : ℚ) := by
    exact_mod_cast congrArg (fun z : ℤ => (z : ℚ))
      (Int.toNat_of_nonneg (Int.floor_nonneg.mpr hr0))
  have hfractEq : q + 1 / (2 * 10 ^ prec) - (((⌊q + 1 / (2 * 10 ^ prec)⌋).toNat : ℕ) : ℚ)
      = Int.fract (q + 1 / (2 * 10 ^ prec)) := by
    rw [hipQ]
    rfl
  have hfracLt :
      (⌊(q + 1 / (2 * 10 ^ prec) - (((⌊q + 1 / (2 * 10 ^ prec)⌋).toNat : ℕ) : ℚ))
          * 10 ^ prec⌋).toNat < 10 ^ prec := by
    rw [hfractEq]
    have hnn : (0 : ℚ) ≤ Int.fract (q + 1 / (2 * 10 ^ prec)) * 10 ^ prec := by
      have := Int.fract_nonneg (q + 1 / (2 * 10 ^ prec))
      positivity
    rw [Int.toNat_lt (Int.floor_nonneg.mpr hnn)]
    apply Int.floor_lt.mpr
    push_cast
    have h1 := Int.fract_lt_one (q + 1 / (2 * 10 ^ prec))
    have h2 : (0 : ℚ) < 10 ^ prec := by positivity
    nlinarith
  refine ⟨natRepr (⌊q + 1 / (2 * 10 ^ prec)⌋).toNat,
    List.replicate (prec - (natRepr
        (⌊(q + 1 / (2 * 10 ^ prec) - (((⌊q + 1 / (2 * 10 ^ prec)⌋).toNat : ℕ) : ℚ))
          * 10 ^ prec⌋).toNat).length) '0'
      ++ natRepr
        (⌊(q + 1 / (2 * 10 ^ prec) - (((⌊q + 1 / (2 * 10 ^ prec)⌋).toNat : ℕ) : ℚ))
          * 10 ^ prec⌋).toNat,
    ?_, natRepr_ne_nil _, natRepr_allDigits _, ?_, ?_⟩
  · rw [String.data_append, String.data_append]
  · have hle := natRepr_length_le
      (⌊(q + 1 / (2 * 10 ^ prec) - (((⌊q + 1 / (2 * 10 ^ prec)⌋).toNat : ℕ) : ℚ))
          * 10 ^ prec⌋).toNat prec hp hfracLt
    simp only [List.length_append, List.length_replicate]
    omega
  · intro c hc
    rw [List.mem_append] at hc
    rcases hc with hc | hc
    · rw [List.eq_of_mem_replicate hc]
      decide
    · exact natRepr_allDigits _ c hc

theorem fmtFixed_shape (prec : ℕ) (q : ℚ) (hp : 1 ≤ prec) :
    DecimalShape prec (fmtFixed prec q) := by
  unfold fmtFixed
  split_ifs with h
  · obtain ⟨ip, frac, hdata, hne, hd1, hlen, hd2⟩ :=
      fmtFixedNonneg_shape prec (-q) (by linarith) hp
    refine ⟨['-'], ip, frac, ?_, Or.inr rfl, hne, hd1, hlen, hd2⟩
    rw [String.data_append, hdata]
    simp
  · obtain ⟨ip, frac, hdata, hne, hd1, hlen, hd2⟩ :=
      fmtFixedNonneg_shape prec q (by linarith) hp
    exact ⟨[], ip, frac, by simpa using hdata, Or.inl rfl, hne, hd1, hlen, hd2⟩

theorem fmtFixed_no_newline (prec : ℕ) (q : ℚ) (hp : 1 ≤ prec) :
    ∀ c ∈ (fmtFixed prec q).data, c ≠ '\n' := by
  obtain ⟨sign, ip, frac, hdata, hsign, _, hd1, _, hd2⟩ := fmtFixed_shape prec q hp
  intro c hc
  rw [hdata] at hc
  simp only [List.append_assoc, List.mem_append, List.mem_singleton] at hc
  rcases hc with hc | hc | hc | hc
  · rcases hsign with hs | hs <;> subst hs
    · simp at hc
    · simp only [List.mem_singleton] at hc
      subst hc
      decide
  · exact isDigit_ne_newline c (hd1 c hc)
  · subst hc
    decide
  · exact isDigit_ne_newline c (hd2 c hc)

theorem producerRun_lines (inputs : List (Quat × ℚ)) :
    ∀ st : LoopState, ∀ line ∈ (producerRun st inputs).2,
      ∃ (a : Quat) (v : ℚ), line = printQuaternion a v := by
  induction inputs with
  | nil => intro st line hline; simp [producerRun] at hline
  | cons p rest ih =>
    intro st line hline
    simp only [producerRun, List.mem_cons] at hline
    rcases hline with hline | hline
    · exact ⟨_, _, hline⟩
    · exact ih _ line hline

/-- C4: every emitted line is exactly
"Quat W:" w ", X:" x ", Y:" y ", Z:" z "," scalar newline — w, x, y, z
printed with exactly four fraction digits, the scalar with the formatter's
native two — one complete newline-terminated line per cycle, the newline
its only occurrence (no batching, no partial lines). -/
theorem frame_line_format :
    (∀ (quat : Quat) (sensorValue : ℚ),
      printQuaternion quat sensorValue
        = "Quat W:" ++ fmtFixed 4 quat.w ++ ", X:" ++ fmtFixed 4 quat.x ++
          ", Y:" ++ fmtFixed 4 quat.y ++ ", Z:" ++ fmtFixed 4 quat.z ++ "," ++
          fmtFixed 2 sensorValue ++ "\n" ∧
      DecimalShape 4 (fmtFixed 4 quat.w) ∧
      DecimalShape 4 (fmtFixed 4 quat.x) ∧
      DecimalShape 4 (fmtFixed 4 quat.y) ∧
      DecimalShape 4 (fmtFixed 4 quat.z) ∧
      DecimalShape 2 (fmtFixed 2 sensorValue) ∧
      (∃ body : String,
        printQuaternion quat sensorValue = body ++ "\n" ∧
        ∀ c ∈ body.data, c ≠ '\n')) ∧
    (∀ (st : LoopState) (inputs : List (Quat × ℚ)),
      (producerRun st inputs).2.length = inputs.length ∧
      ∀ line ∈ (producerRun st inputs).2,
        ∃ (a : Quat) (v : ℚ), line = printQuaternion a v) := by
  constructor
  · intro quat sensorValue
    refine ⟨rfl, fmtFixed_shape 4 _ (by omega), fmtFixed_shape 4 _ (by omega),
      fmtFixed_shape 4 _ (by omega), fmtFixed_shape 4 _ (by omega),
      fmtFixed_shape 2 _ (by omega), ?_⟩
    refine ⟨"Quat W:" ++ fmtFixed 4 quat.w ++ ", X:" ++ fmtFixed 4 quat.x ++
      ", Y:" ++ fmtFixed 4 quat.y ++ ", Z:" ++ fmtFixed 4 quat.z ++ "," ++
      fmtFixed 2 sensorValue, rfl, ?_⟩
    intro c hc
    simp only [String.data_append, List.append_assoc, List.mem_append] at hc
    rcases hc with hc | hc | hc | hc | hc | hc | hc | hc | hc | hc
    · exact (by decide : ∀ x ∈ ("Quat W:" : String).data, x ≠ '\n') c hc
    · exact fmtFixed_no_newline 4 quat.w (by omega) c hc
    · exact (by decide : ∀ x ∈ (", X:" : String).data, x ≠ '\n') c hc
    · exact fmtFixed_no_newline 4 quat.x (by omega) c hc
    · exact (by decide : ∀ x ∈ (", Y:" : String).data, x ≠ '\n') c hc
    · exact fmtFixed_no_newline 4 quat.y (by omega) c hc
    · exact (by decide : ∀ x ∈ (", Z:" : String).data, x ≠ '\n') c hc
    · exact fmtFixed_no_newline 4 quat.z (by omega) c hc
    · exact (by decide : ∀ x ∈ ("," : String).data, x ≠ '\n') c hc
    · exact fmtFixed_no_newline 2 sensorValue (by omega) c hc
  · intro st inputs
    exact ⟨producerRun_outputs_length inputs st, producerRun_lines inputs st⟩

/-- Witness for C10: the frame "Quat W:1, X:0, Y:0, Z:0,2" parses with a
plunger scalar of 2 — outside [0,1] — yet the applied plunger z stays
inside [-0.0532, 0.0093]. -/
theorem plunger_range_clamped_witness :
    -532 / 10000
        ≤ (ApplyQuaternion ⟨⟨0, 0, 0, 1⟩, ⟨0, 0, 0⟩⟩
            "Quat W:1, X:0, Y:0, Z:0,2").plungerLocalPosition.z ∧
    (ApplyQuaternion ⟨⟨0, 0, 0, 1⟩, ⟨0, 0, 0⟩⟩
        "Quat W:1, X:0, Y:0, Z:0,2").plungerLocalPosition.z ≤ 93 / 10000 :=
  ⟨(plunger_range_clamped ⟨⟨0, 0, 0, 1⟩, ⟨0, 0, 0⟩⟩ "Quat W:1, X:0, Y:0, Z:0,2"
      1 0 0 0 2 (by decide)).2.2.1,
   (plunger_range_clamped ⟨⟨0, 0, 0, 1⟩, ⟨0, 0, 0⟩⟩ "Quat W:1, X:0, Y:0, Z:0,2"
      1 0 0 0 2 (by decide)).2.2.2⟩
